import Mathlib

/-!
Verification development for the FastDrop upload orchestration engine.

The renderer state machine is translated from src/App.tsx (addFile,
uploadFile, removeFile, copyToClipboard), the main-process handlers from
src/main.ts (uploadTo0x0, uploadToGoogleDrive and the config IPC handlers).
-/

namespace FastDrop

/-! ## Renderer data model (src/App.tsx)

`type UploadState = 'idle' | 'uploading' | 'success' | 'error'` and
`interface FileUpload` with fields path, name, state, progress, url?, error?.
-/

inductive UploadState
  | idle
  | uploading
  | success
  | error
deriving DecidableEq

structure FileUpload where
  path : String
  name : String
  state : UploadState
  progress : Nat
  url : Option String
  error : Option String
deriving DecidableEq

/-- The characters after the last slash: what `path.split('/').pop()`
returns. -/
def lastSegAux : List Char → List Char → List Char
  | acc, [] => acc
  | acc, c :: cs => if c = '/' then lastSegAux [] cs else lastSegAux (acc ++ [c]) cs

/-- The source expression `filePath.split('/').pop() || filePath` (App.tsx line 124): the final
path segment, falling back to the whole path when that segment is empty. -/
def displayName (filePath : String) : String :=
  let last := String.mk (lastSegAux [] filePath.data)
  if last = "" then filePath else last

/-- JavaScript whitespace as used by `String.prototype.trim`, restricted
to the ASCII whitespace characters. -/
def isJsWs (c : Char) : Bool :=
  c = ' ' || c = '\t' || c = '\n' || c = '\r'

/-- Model of `s.trim()`: surrounding whitespace removed. -/
def jsTrim (s : String) : String :=
  String.mk (((s.data.dropWhile isJsWs).reverse.dropWhile isJsWs).reverse)

/-- The function `addFile` (App.tsx lines 123-140): dedup on path, otherwise append a
fresh idle entry with progress 0. -/
def addFile (files : List FileUpload) (filePath : String) : List FileUpload :=
  if ((files.find? (fun f => f.path == filePath)).isSome : Bool) then files
  else files ++ [{ path := filePath, name := displayName filePath,
                   state := .idle, progress := 0, url := none, error := none }]

/-- Indexed map, the shape of the source `prev.map((f, i) => ...)` updaters. -/
def mapWithIdx {α : Type} (g : Nat → α → α) : Nat → List α → List α
  | _, [] => []
  | i, f :: t => g i f :: mapWithIdx g (i + 1) t

/-- The `setFiles` updater at App.tsx lines 146-148: entry at `fileIndex`
becomes uploading with progress 0. -/
def setUploading (files : List FileUpload) (fileIndex : Nat) : List FileUpload :=
  mapWithIdx (fun i f =>
    if i = fileIndex then { f with state := .uploading, progress := 0 } else f) 0 files

/-- The progress interval updater at App.tsx lines 150-157: the entry at
`fileIndex`, while uploading and below 90, gains 10. -/
def tickProgress (files : List FileUpload) (fileIndex : Nat) : List FileUpload :=
  mapWithIdx (fun i f =>
    if i = fileIndex ∧ f.state = .uploading ∧ f.progress < 90 then
      { f with progress := f.progress + 10 }
    else f) 0 files

/-- The success updater at App.tsx lines 163-170: entry at `fileIndex`
becomes success, progress 100, url := url.trim(). -/
def setSuccess (files : List FileUpload) (fileIndex : Nat) (url : String) : List FileUpload :=
  mapWithIdx (fun i f =>
    if i = fileIndex then { f with state := .success, progress := 100, url := some (jsTrim url) }
    else f) 0 files

/-- The catch updater at App.tsx lines 192-199: entry at `fileIndex`
becomes error, progress 0, error := message. -/
def setError (files : List FileUpload) (fileIndex : Nat) (msg : String) : List FileUpload :=
  mapWithIdx (fun i f =>
    if i = fileIndex then { f with state := .error, progress := 0, error := some msg }
    else f) 0 files

/-- The function `removeFile` (App.tsx lines 203-205): `prev.filter((_, i) => i !== index)`,
written with an explicit position counter. -/
def removeAux (index : Nat) : Nat → List FileUpload → List FileUpload
  | _, [] => []
  | i, f :: t => if i = index then removeAux index (i + 1) t
                 else f :: removeAux index (i + 1) t

def removeFile (files : List FileUpload) (index : Nat) : List FileUpload :=
  removeAux index 0 files

/-! ## Trace semantics of the renderer

`uploadFile` (App.tsx lines 142-201) captures `fileIndex` and `file.name`
in a closure, starts the interval, awaits the provider, and on settlement
clears the interval and writes the outcome through the captured index.  A
`PendingUpload` records one such closure; its position in the `pending`
list is its token.  Side effects (navigator.clipboard.writeText at line
208, window.electronAPI.showNotification at lines 184-188) are recorded as
`Effect`s.  The begin event carries the render-time guard of the Upload
button (App.tsx line 415): it is only shown on an idle entry.
-/

structure PendingUpload where
  fileIndex : Nat
  fileName : String
  isOpen : Bool
deriving DecidableEq

inductive Effect
  | clipboardWrite (text : String)
  | showNotify (title body url : String)
deriving DecidableEq

inductive Event
  | add (path : String)
  | clickUpload (idx : Nat)
  | tick (tok : Nat)
  | providerResolve (tok : Nat) (url : String)
  | providerReject (tok : Nat) (msg : String)
  | remove (idx : Nat)
deriving DecidableEq

structure Sys where
  files : List FileUpload
  pending : List PendingUpload
deriving DecidableEq

def initSys : Sys := { files := [], pending := [] }

/-- Mark the pending upload `tok` settled (clearInterval + promise settled:
stale ticks and double settlement are impossible afterwards). -/
def closeTok (pending : List PendingUpload) (tok : Nat) : List PendingUpload :=
  mapWithIdx (fun i p => if i = tok then { p with isOpen := false } else p) 0 pending

def notifyBody (autoCopy : Bool) (fileName : String) : String :=
  if autoCopy then fileName ++ " uploaded successfully! Link copied to clipboard."
  else fileName ++ " uploaded successfully! Click to view in app."

/-- One interleaving step of the renderer.  `autoCopy` is the auto-copy
flag read in the success path (App.tsx lines 173 and 180). -/
def step (autoCopy : Bool) (s : Sys) (e : Event) : Sys × List Effect :=
  match e with
  | .add p => ({ s with files := addFile s.files p }, [])
  | .clickUpload idx =>
      match s.files[idx]? with
      | some f =>
          if f.state = .idle then
            ({ files := setUploading s.files idx,
               pending := s.pending ++ [{ fileIndex := idx, fileName := f.name, isOpen := true }] },
             [])
          else (s, [])
      | none => (s, [])
  | .tick tok =>
      match s.pending[tok]? with
      | some p =>
          if p.isOpen then ({ s with files := tickProgress s.files p.fileIndex }, [])
          else (s, [])
      | none => (s, [])
  | .providerResolve tok url =>
      match s.pending[tok]? with
      | some p =>
          if p.isOpen then
            ({ files := setSuccess s.files p.fileIndex url,
               pending := closeTok s.pending tok },
             (if autoCopy ∧ url ≠ "" then [Effect.clipboardWrite (jsTrim url)] else []) ++
             (if url ≠ "" then
                [Effect.showNotify "FastDrop - Upload Complete"
                  (notifyBody autoCopy p.fileName) (jsTrim url)]
              else []))
          else (s, [])
      | none => (s, [])
  | .providerReject tok msg =>
      match s.pending[tok]? with
      | some p =>
          if p.isOpen then
            ({ files := setError s.files p.fileIndex msg,
               pending := closeTok s.pending tok }, [])
          else (s, [])
      | none => (s, [])
  | .remove idx => ({ s with files := removeFile s.files idx }, [])

def runSys (autoCopy : Bool) (s : Sys) : List Event → Sys × List Effect
  | [] => (s, [])
  | e :: rest =>
      let r := step autoCopy s e
      let r' := runSys autoCopy r.1 rest
      (r'.1, r.2 ++ r'.2)

/-- The state reached after a trace. -/
def runState (autoCopy : Bool) (s : Sys) (evs : List Event) : Sys :=
  (runSys autoCopy s evs).1

/-- The effects emitted along a trace. -/
def runEffects (autoCopy : Bool) (s : Sys) (evs : List Event) : List Effect :=
  (runSys autoCopy s evs).2

/-- The registry entry for path `p` (entries are keyed by path). -/
def entryFor (s : Sys) (p : String) : Option FileUpload :=
  s.files.find? (fun f => f.path == p)

/-! ## Main process (src/main.ts)

Thrown JavaScript `Error` values are modelled as their message; template
interpolation of an error (`\x24{error}`) stringifies it as
`Error: message` (or `Error` when the message is empty).
-/

structure JsError where
  message : String
deriving DecidableEq

def jsErr (m : String) : JsError := { message := m }

def errToString (e : JsError) : String :=
  if e.message = "" then "Error" else "Error: " ++ e.message

/-- An HTTP response as seen through node-fetch: `response.ok` is derived
as status in [200, 300); `response.text()` is the body both on the error
path and the success path. -/
structure HttpResponse where
  status : Nat
  statusText : String
  body : String
deriving DecidableEq

def respOk (r : HttpResponse) : Bool :=
  decide (200 ≤ r.status) && decide (r.status < 300)

/-- The function `uploadTo0x0` (main.ts lines 275-295), as a function of the response
the fixed endpoint produced for the single POST. -/
def uploadTo0x0 (resp : HttpResponse) : Except JsError String :=
  if respOk resp then Except.ok (jsTrim resp.body)
  else Except.error (jsErr
    ("Upload to 0x0.st failed: " ++ toString resp.status ++ " " ++ resp.statusText
      ++ " - " ++ resp.body))

/-! ### Persisted config (~/.fastdrop/config.json) -/

structure CredData where
  clientId : String
  clientSecret : String
deriving DecidableEq

/-- The structured record the handlers read and write.  A field that is
absent in the JSON is `none`; a credentials field that is absent is
conflated with the empty string, which every use treats identically
(JavaScript truthiness on strings). -/
structure ConfigData where
  googleCredentials : Option CredData
  autoStart : Option Bool
  autoCopy : Option Bool
deriving DecidableEq

/-- The on-disk state of the config file: missing, present but not
parsable as a JSON object, or parsed. -/
inductive ConfigContent
  | missing
  | unparsable
  | parsed (c : ConfigData)
deriving DecidableEq

/-- The shared read pattern of the write handlers (main.ts lines 394-403,
449-456, 560-567): a missing or corrupted file yields the empty config. -/
def readConfigOrEmpty : ConfigContent → ConfigData
  | .parsed c => c
  | _ => { googleCredentials := none, autoStart := none, autoCopy := none }

/-- The handler `ipcMain.handle('save-google-credentials')` (main.ts lines 387-414):
the config written back to disk. -/
def saveGoogleCredentials (prior : ConfigContent) (clientId clientSecret : String) :
    ConfigData :=
  { readConfigOrEmpty prior with
      googleCredentials := some ({ clientId := clientId, clientSecret := clientSecret } : CredData) }

/-- The handler `ipcMain.handle('set-auto-copy')` (main.ts lines 553-577): the config
written back to disk. -/
def setAutoCopy (prior : ConfigContent) (enabled : Bool) : ConfigData :=
  { readConfigOrEmpty prior with autoCopy := some enabled }

/-- The handler `ipcMain.handle('get-google-credentials')` (main.ts lines 416-437). -/
def getGoogleCredentials : ConfigContent → Option CredData
  | .missing => none
  | .unparsable => none
  | .parsed c =>
      match c.googleCredentials with
      | some g => if g.clientId ≠ "" ∧ g.clientSecret ≠ "" then some g else none
      | none => none

/-- The handler `ipcMain.handle('get-auto-copy')` (main.ts lines 579-593):
`config.autoCopy || false`. -/
def getAutoCopy : ConfigContent → Bool
  | .missing => false
  | .unparsable => false
  | .parsed c => c.autoCopy.getD false

/-! ### uploadToGoogleDrive (main.ts lines 297-368) -/

/-- The stored-credentials lookup of the inner try at main.ts lines
303-321: a parsed config with a truthy googleCredentials object wins;
every other outcome (missing file, parse failure, absent field) falls
through to the environment strings, which the source has already
defaulted to the empty string (`process.env.X || ''`). -/
def resolveCredentials (cfg : ConfigContent) (envClientId envClientSecret : String) :
    String × String :=
  match cfg with
  | .parsed c =>
      match c.googleCredentials with
      | some g => (g.clientId, g.clientSecret)
      | none => (envClientId, envClientSecret)
  | _ => (envClientId, envClientSecret)

deriving instance DecidableEq for Except

/-- The credentials record the stored-config branch uses, when its guard
(`config.googleCredentials` truthy) passes: `none` for a missing file, a
parse failure, or an absent field. -/
def persistedCreds : ConfigContent → Option CredData
  | .parsed c => c.googleCredentials
  | _ => none

/-- The behaviour of the two Drive network calls: `drive.files.create`
either throws, or responds with `data.id` (possibly null); then
`drive.permissions.create` either throws or succeeds. -/
structure DriveNetModel where
  createResult : Except String (Option String)
  permResult : Except String Unit
deriving DecidableEq

/-- The function `uploadToGoogleDrive`, paired with the number of network calls made.
Every thrown error is wrapped by the catch at main.ts lines 364-367 as
`Google Drive upload failed: <Error stringification>`. -/
def uploadToGoogleDrive (cfg : ConfigContent) (envClientId envClientSecret : String)
    (net : DriveNetModel) : Except JsError String × Nat :=
  let r := resolveCredentials cfg envClientId envClientSecret
  if r.1 = "" ∨ r.2 = "" then
    (Except.error (jsErr ("Google Drive upload failed: " ++
        errToString (jsErr
          "Google Drive credentials not configured. Please configure them in the settings."))),
     0)
  else
    match net.createResult with
    | .error m =>
        (Except.error (jsErr ("Google Drive upload failed: " ++ errToString (jsErr m))), 1)
    | .ok none =>
        (Except.error (jsErr ("Google Drive upload failed: " ++
            errToString (jsErr "Failed to upload file to Google Drive"))), 1)
    | .ok (some fileId) =>
        match net.permResult with
        | .error m =>
            (Except.error (jsErr ("Google Drive upload failed: " ++ errToString (jsErr m))), 2)
        | .ok _ =>
            (Except.ok ("https://drive.google.com/file/d/" ++ fileId ++ "/view"), 2)

inductive Service
  | googledrive
  | zeroxzero
deriving DecidableEq

/-- The handler `ipcMain.handle('upload-file')` (main.ts lines 260-273), paired with
the number of network calls made.  `readRes` is the outcome of
`readFile(filePath)`; for the 0x0 service `resp` is the response of the
single fetch.  The catch wraps any thrown error as
`Upload failed: <Error stringification>`. -/
def uploadFileHandler (readRes : Except JsError Unit) (service : Service)
    (resp : HttpResponse) (cfg : ConfigContent) (envClientId envClientSecret : String)
    (net : DriveNetModel) : Except JsError String × Nat :=
  match readRes with
  | .error e => (Except.error (jsErr ("Upload failed: " ++ errToString e)), 0)
  | .ok _ =>
      match service with
      | .zeroxzero =>
          match uploadTo0x0 resp with
          | .ok url => (Except.ok url, 1)
          | .error e => (Except.error (jsErr ("Upload failed: " ++ errToString e)), 1)
      | .googledrive =>
          match uploadToGoogleDrive cfg envClientId envClientSecret net with
          | (.ok url, n) => (Except.ok url, n)
          | (.error e, n) =>
              (Except.error (jsErr ("Upload failed: " ++ errToString e)), n)

/-! ## Invariants and relations used by the theorems -/

/-- Per-entry invariant: progress stays a multiple of 10 within [0,100],
and stays at most 90 while the entry is uploading. -/
def entryInv (f : FileUpload) : Prop :=
  f.progress ≤ 100 ∧ f.progress % 10 = 0 ∧ (f.state = .uploading → f.progress ≤ 90)

/-- Registry invariant: pairwise-distinct paths, every entry well formed. -/
def regInv (s : Sys) : Prop :=
  (s.files.map (fun f => f.path)).Nodup ∧ ∀ f ∈ s.files, entryInv f

def sysInv (s : Sys) : Prop :=
  (∀ q ∈ s.pending, q.isOpen = true →
      ∃ u, s.files[q.fileIndex]? = some u ∧ u.state = UploadState.uploading)
  ∧ (∀ (i j : Nat) (qi qj : PendingUpload),
      s.pending[i]? = some qi → s.pending[j]? = some qj →
      qi.isOpen = true → qj.isOpen = true → qi.fileIndex = qj.fileIndex → i = j)

/-- All pending uploads settled: no provider call is in flight. -/
def noOpenB (s : Sys) : Bool := s.pending.all (fun q => !q.isOpen)

/-- An event is safe when it is not a removal during an in-flight upload. -/
def eventSafe (s : Sys) : Event → Bool
  | .remove _ => noOpenB s
  | _ => true

/-- Allowed one-step state transitions of the specified machine
`Idle to Uploading to Success or Error` (staying put included). -/
def stepOkB : UploadState → UploadState → Bool
  | UploadState.idle, UploadState.idle => true
  | UploadState.idle, UploadState.uploading => true
  | UploadState.uploading, UploadState.uploading => true
  | UploadState.uploading, UploadState.success => true
  | UploadState.uploading, UploadState.error => true
  | UploadState.success, UploadState.success => true
  | UploadState.error, UploadState.error => true
  | _, _ => false

/-- The progress part of one observation step on one entry: while the
entry stays in Uploading, progress is unchanged or gains exactly the tick
step 10 and stays at most 90; a transition out of Uploading to Success
sets exactly 100 and to Error exactly 0. -/
def progressStep (f f' : FileUpload) : Prop :=
  f.state = UploadState.uploading →
    (f'.state = UploadState.uploading →
      (f'.progress = f.progress ∨ f'.progress = f.progress + 10) ∧ f'.progress ≤ 90) ∧
    (f'.state = UploadState.success → f'.progress = 100) ∧
    (f'.state = UploadState.error → f'.progress = 0)

/-- No event of the trace removes an entry while a provider call is in
flight. -/
def remSafeB (autoCopy : Bool) (s : Sys) : List Event → Bool
  | [] => true
  | e :: rest => eventSafe s e && remSafeB autoCopy (step autoCopy s e).1 rest

/-! ## Helper lemmas about the indexed list operations -/

theorem mapWithIdx_length {α : Type} (g : Nat → α → α) :
    ∀ (i : Nat) (l : List α), (mapWithIdx g i l).length = l.length := by
  intro i l
  induction l generalizing i with
  | nil => rfl
  | cons f t ih => simp [mapWithIdx, ih]

theorem getElem?_mapWithIdx {α : Type} (g : Nat → α → α) :
    ∀ (i : Nat) (l : List α) (j : Nat),
      (mapWithIdx g i l)[j]? = (l[j]?).map (g (i + j)) := by
  intro i l
  induction l generalizing i with
  | nil => intro j; rfl
  | cons f t ih =>
      intro j
      cases j with
      | zero => simp [mapWithIdx]
      | succ j =>
          simp only [mapWithIdx, List.getElem?_cons_succ, ih (i + 1) j]
          have h : i + 1 + j = i + (j + 1) := by omega
          rw [h]

theorem find?_cons_eq_if {α : Type} (q : α → Bool) (a : α) (l : List α) :
    (a :: l).find? q = if q a then some a else l.find? q := by
  rw [List.find?_cons]; cases q a <;> rfl

theorem find?_append_left {α : Type} (q : α → Bool) :
    ∀ {l₁ l₂ : List α} {a : α}, l₁.find? q = some a → (l₁ ++ l₂).find? q = some a := by
  intro l₁ l₂ a h
  induction l₁ with
  | nil => exact absurd h (by simp)
  | cons x t ih =>
      rw [find?_cons_eq_if] at h
      rw [List.cons_append, find?_cons_eq_if]
      by_cases hx : q x
      · rwa [if_pos hx] at h ⊢
      · rw [if_neg hx] at h ⊢
        exact ih h

theorem map_path_mapWithIdx {g : Nat → FileUpload → FileUpload}
    (hg : ∀ i f, (g i f).path = f.path) :
    ∀ (i : Nat) (l : List FileUpload),
      (mapWithIdx g i l).map (fun f => f.path) = l.map (fun f => f.path) := by
  intro i l
  induction l generalizing i with
  | nil => rfl
  | cons f t ih => simp [mapWithIdx, hg, ih]

/-- A find on an indexed map that preserves paths finds the image of the
entry the original find returns, at the same position. -/
theorem find?_mapWithIdx_pair {g : Nat → FileUpload → FileUpload}
    (hg : ∀ i f, (g i f).path = f.path) (p : String) :
    ∀ (i : Nat) (l : List FileUpload) (f f' : FileUpload),
      l.find? (fun x => x.path == p) = some f →
      (mapWithIdx g i l).find? (fun x => x.path == p) = some f' →
      ∃ j, l[j]? = some f ∧ f' = g (i + j) f := by
  intro i l
  induction l generalizing i with
  | nil => intro f f' h; exact absurd h (by simp)
  | cons x t ih =>
      intro f f' h h'
      rw [find?_cons_eq_if] at h
      rw [show mapWithIdx g i (x :: t) = g i x :: mapWithIdx g (i + 1) t from rfl,
          find?_cons_eq_if] at h'
      by_cases hx : ((fun x : FileUpload => x.path == p) x) = true
      · rw [if_pos hx] at h
        have hgx : ((fun x : FileUpload => x.path == p) (g i x)) = true := by
          simpa [hg] using hx
        rw [if_pos hgx] at h'
        refine ⟨0, ?_, ?_⟩
        · simpa using h
        · cases h; cases h'; simp
      · rw [if_neg hx] at h
        have hgx : ¬ ((fun x : FileUpload => x.path == p) (g i x)) = true := by
          simpa [hg] using hx
        rw [if_neg hgx] at h'
        obtain ⟨j, hj, hj'⟩ := ih (i + 1) f f' h h'
        refine ⟨j + 1, by simpa using hj, ?_⟩
        have hij : i + 1 + j = i + (j + 1) := by omega
        rw [← hij]; exact hj'

theorem removeAux_sublist (index : Nat) :
    ∀ (i : Nat) (l : List FileUpload), (removeAux index i l).Sublist l := by
  intro i l
  induction l generalizing i with
  | nil => simp [removeAux]
  | cons f t ih =>
      by_cases h : i = index
      · simpa [removeAux, h] using (ih (i + 1)).cons f
      · simpa [removeAux, h] using (ih (i + 1)).cons₂ f

/-- With pairwise-distinct paths, an entry found after an indexed removal
is exactly the entry found before it. -/
theorem find?_removeAux (p : String) :
    ∀ (index i : Nat) (l : List FileUpload),
      (l.map (fun f => f.path)).Nodup →
      ∀ f', (removeAux index i l).find? (fun x => x.path == p) = some f' →
        l.find? (fun x => x.path == p) = some f' := by
  intro index i l
  induction l generalizing i with
  | nil => intro _ f' h; exact absurd h (by simp [removeAux])
  | cons x t ih =>
      intro hnd f' h
      have hndt : (t.map (fun f => f.path)).Nodup := (List.nodup_cons.mp hnd).2
      have hxnot : x.path ∉ t.map (fun f => f.path) := (List.nodup_cons.mp hnd).1
      by_cases hi : i = index
      · rw [show removeAux index i (x :: t) = removeAux index (i + 1) t by
            simp [removeAux, hi]] at h
        have hmem : f' ∈ t := (removeAux_sublist index (i + 1) t).mem
          (List.mem_of_find?_eq_some h)
        have hpred := List.find?_some h
        rw [find?_cons_eq_if]
        by_cases hx : ((fun x : FileUpload => x.path == p) x) = true
        · exfalso
          apply hxnot
          have hxp : x.path = p := by simpa using hx
          have hfp : f'.path = p := by simpa using hpred
          rw [hxp, ← hfp]
          exact List.mem_map.mpr ⟨f', hmem, rfl⟩
        · rw [if_neg hx]
          exact ih (i + 1) hndt f' h
      · rw [show removeAux index i (x :: t) = x :: removeAux index (i + 1) t by
            simp [removeAux, hi]] at h
        rw [find?_cons_eq_if] at h
        rw [find?_cons_eq_if]
        by_cases hx : ((fun x : FileUpload => x.path == p) x) = true
        · rwa [if_pos hx] at h ⊢
        · rw [if_neg hx] at h ⊢
          exact ih (i + 1) hndt f' h

theorem mapWithIdx_forall {α : Type} {P : α → Prop} {g : Nat → α → α}
    (hg : ∀ i f, P f → P (g i f)) :
    ∀ (i : Nat) (l : List α), (∀ f ∈ l, P f) → ∀ f ∈ mapWithIdx g i l, P f := by
  intro i l
  induction l generalizing i with
  | nil => intro _ f hf; exact absurd hf (by simp [mapWithIdx])
  | cons x t ih =>
      intro hall f hf
      rw [show mapWithIdx g i (x :: t) = g i x :: mapWithIdx g (i + 1) t from rfl] at hf
      rcases List.mem_cons.mp hf with h | h
      · exact h ▸ hg i x (hall x (by simp))
      · exact ih (i + 1) (fun f hf => hall f (by simp [hf])) f h

/-! ## Registry invariants -/

theorem regInv_init : regInv initSys := by
  constructor
  · simp [initSys]
  · intro f hf; exact absurd hf (by simp [initSys])

theorem setUploading_path (fileIndex : Nat) :
    ∀ (i : Nat) (f : FileUpload), ((fun (i : Nat) (f : FileUpload) => if i = fileIndex then
        { f with state := UploadState.uploading, progress := 0 } else f) i f).path = f.path := by
  intro i f; by_cases h : i = fileIndex <;> simp [h]

theorem tickProgress_path (fileIndex : Nat) :
    ∀ (i : Nat) (f : FileUpload), ((fun (i : Nat) (f : FileUpload) =>
        if i = fileIndex ∧ f.state = UploadState.uploading ∧ f.progress < 90 then
          { f with progress := f.progress + 10 } else f) i f).path = f.path := by
  intro i f
  by_cases h : i = fileIndex ∧ f.state = UploadState.uploading ∧ f.progress < 90 <;> simp [h]

theorem setSuccess_path (fileIndex : Nat) (url : String) :
    ∀ (i : Nat) (f : FileUpload), ((fun (i : Nat) (f : FileUpload) => if i = fileIndex then
        { f with state := UploadState.success, progress := 100, url := some (jsTrim url) }
      else f) i f).path = f.path := by
  intro i f; by_cases h : i = fileIndex <;> simp [h]

theorem setError_path (fileIndex : Nat) (msg : String) :
    ∀ (i : Nat) (f : FileUpload), ((fun (i : Nat) (f : FileUpload) => if i = fileIndex then
        { f with state := UploadState.error, progress := 0, error := some msg }
      else f) i f).path = f.path := by
  intro i f; by_cases h : i = fileIndex <;> simp [h]

theorem addFile_regInv (files : List FileUpload) (p : String)
    (hnd : (files.map (fun f => f.path)).Nodup) (hinv : ∀ f ∈ files, entryInv f) :
    ((addFile files p).map (fun f => f.path)).Nodup ∧ ∀ f ∈ addFile files p, entryInv f := by
  unfold addFile
  by_cases h : ((files.find? (fun f => f.path == p)).isSome : Bool) = true
  · rw [if_pos h]; exact ⟨hnd, hinv⟩
  · rw [if_neg h]
    have hnone : files.find? (fun f => f.path == p) = none :=
      Option.not_isSome_iff_eq_none.mp (by simpa using h)
    have hnotin : ∀ f ∈ files, ¬ (f.path = p) := by
      intro f hf hp
      have := List.find?_eq_none.mp hnone f hf
      simp [hp] at this
    constructor
    · rw [List.map_append]
      rw [List.nodup_append]
      refine ⟨hnd, by simp, ?_⟩
      intro a ha hb
      simp only [List.map_cons, List.map_nil, List.mem_singleton] at hb
      obtain ⟨f, hf, rfl⟩ := List.mem_map.mp ha
      exact hnotin f hf hb
    · intro f hf
      rcases List.mem_append.mp hf with h1 | h1
      · exact hinv f h1
      · have : f = { path := p, name := displayName p, state := UploadState.idle,
                     progress := 0, url := none, error := none } := by simpa using h1
        rw [this]
        exact ⟨by simp, by simp, by intro hc; simp at hc⟩

/-- The registry invariant is preserved by every step. -/
theorem step_regInv (autoCopy : Bool) (s : Sys) (e : Event) (h : regInv s) :
    regInv (step autoCopy s e).1 := by
  obtain ⟨hnd, hinv⟩ := h
  cases e with
  | add p =>
      simp only [step]
      exact ⟨(addFile_regInv s.files p hnd hinv).1, (addFile_regInv s.files p hnd hinv).2⟩
  | clickUpload idx =>
      cases hidx : s.files[idx]? with
      | none => simp only [step, hidx]; exact ⟨hnd, hinv⟩
      | some fentry =>
          by_cases hst : fentry.state = UploadState.idle
          · simp only [step, hidx, if_pos hst]
            refine ⟨?_, ?_⟩
            · rw [show setUploading s.files idx = mapWithIdx _ 0 s.files from rfl,
                  map_path_mapWithIdx (setUploading_path idx)]
              exact hnd
            · exact mapWithIdx_forall (fun i f hf => by
                by_cases hi : i = idx
                · simp only [hi, if_pos rfl]
                  refine ⟨?_, ?_, ?_⟩
                  · show (0 : Nat) ≤ 100; omega
                  · show (0 : Nat) % 10 = 0; omega
                  · intro _; show (0 : Nat) ≤ 90; omega
                · simpa [hi] using hf) 0 s.files hinv
          · simp only [step, hidx, if_neg hst]; exact ⟨hnd, hinv⟩
  | tick tok =>
      cases htok : s.pending[tok]? with
      | none => simp only [step, htok]; exact ⟨hnd, hinv⟩
      | some q =>
          by_cases hq : q.isOpen = true
          · simp only [step, htok, if_pos hq]
            refine ⟨?_, ?_⟩
            · rw [show tickProgress s.files q.fileIndex = mapWithIdx _ 0 s.files from rfl,
                  map_path_mapWithIdx (tickProgress_path q.fileIndex)]
              exact hnd
            · exact mapWithIdx_forall (fun i f hf => by
                by_cases hc : i = q.fileIndex ∧ f.state = UploadState.uploading ∧ f.progress < 90
                · simp only [if_pos hc]
                  obtain ⟨h1, h2, h3⟩ := hf
                  refine ⟨?_, ?_, ?_⟩
                  · show f.progress + 10 ≤ 100; omega
                  · show (f.progress + 10) % 10 = 0; omega
                  · intro _; show f.progress + 10 ≤ 90; omega
                · simpa [hc] using hf) 0 s.files hinv
          · simp only [step, htok, if_neg hq]; exact ⟨hnd, hinv⟩
  | providerResolve tok url =>
      cases htok : s.pending[tok]? with
      | none => simp only [step, htok]; exact ⟨hnd, hinv⟩
      | some q =>
          by_cases hq : q.isOpen = true
          · simp only [step, htok, if_pos hq]
            refine ⟨?_, ?_⟩
            · rw [show setSuccess s.files q.fileIndex url = mapWithIdx _ 0 s.files from rfl,
                  map_path_mapWithIdx (setSuccess_path q.fileIndex url)]
              exact hnd
            · exact mapWithIdx_forall (fun i f hf => by
                by_cases hi : i = q.fileIndex
                · simp only [hi, if_pos rfl]
                  refine ⟨?_, ?_, ?_⟩
                  · show (100 : Nat) ≤ 100; omega
                  · show (100 : Nat) % 10 = 0; omega
                  · intro hc
                    exact absurd hc (by simp)
                · simpa [hi] using hf) 0 s.files hinv
          · simp only [step, htok, if_neg hq]; exact ⟨hnd, hinv⟩
  | providerReject tok msg =>
      cases htok : s.pending[tok]? with
      | none => simp only [step, htok]; exact ⟨hnd, hinv⟩
      | some q =>
          by_cases hq : q.isOpen = true
          · simp only [step, htok, if_pos hq]
            refine ⟨?_, ?_⟩
            · rw [show setError s.files q.fileIndex msg = mapWithIdx _ 0 s.files from rfl,
                  map_path_mapWithIdx (setError_path q.fileIndex msg)]
              exact hnd
            · exact mapWithIdx_forall (fun i f hf => by
                by_cases hi : i = q.fileIndex
                · simp only [hi, if_pos rfl]
                  refine ⟨?_, ?_, ?_⟩
                  · show (0 : Nat) ≤ 100; omega
                  · show (0 : Nat) % 10 = 0; omega
                  · intro hc
                    exact absurd hc (by simp)
                · simpa [hi] using hf) 0 s.files hinv
          · simp only [step, htok, if_neg hq]; exact ⟨hnd, hinv⟩
  | remove idx =>
      simp only [step]
      refine ⟨?_, ?_⟩
      · exact ((removeAux_sublist idx 0 s.files).map (fun f => f.path)).nodup hnd
      · intro f hf
        exact hinv f ((removeAux_sublist idx 0 s.files).mem hf)

/-! ## Per-entry characterization of one step -/

/-- What one interleaving step can do to the entry of a fixed path: leave
it unchanged; begin it (only from idle); tick it (only while uploading and
below 90); or settle it through an open pending upload whose captured
index currently resolves to this entry. -/
theorem step_entry_cases (autoCopy : Bool) (s : Sys) (e : Event) (hreg : regInv s)
    (p : String) (f f' : FileUpload)
    (hf : entryFor s p = some f) (hf' : entryFor (step autoCopy s e).1 p = some f') :
    f' = f
    ∨ (f.state = UploadState.idle ∧ f'.state = UploadState.uploading ∧ f'.progress = 0)
    ∨ (f.state = UploadState.uploading ∧ f.progress < 90 ∧
        f'.state = UploadState.uploading ∧ f'.progress = f.progress + 10)
    ∨ ((∃ (tok : Nat) (q : PendingUpload), s.pending[tok]? = some q ∧ q.isOpen = true ∧
          s.files[q.fileIndex]? = some f) ∧
        ((f'.state = UploadState.success ∧ f'.progress = 100)
          ∨ (f'.state = UploadState.error ∧ f'.progress = 0))) := by
  cases e with
  | add p' =>
      left
      simp only [step, entryFor] at hf'
      unfold addFile at hf'
      by_cases hex : ((s.files.find? (fun f => f.path == p')).isSome : Bool) = true
      · rw [if_pos hex] at hf'
        rw [entryFor] at hf
        rw [hf] at hf'
        exact (Option.some.inj hf').symm
      · rw [if_neg hex] at hf'
        rw [entryFor] at hf
        rw [find?_append_left _ hf] at hf'
        exact (Option.some.inj hf').symm
  | clickUpload idx =>
      cases hidx : s.files[idx]? with
      | none =>
          left
          simp only [step, hidx] at hf'
          rw [hf] at hf'
          exact (Option.some.inj hf').symm
      | some fentry =>
          by_cases hst : fentry.state = UploadState.idle
          · simp only [step, hidx, if_pos hst, entryFor] at hf'
            rw [entryFor] at hf
            obtain ⟨j, hj, hj'⟩ := find?_mapWithIdx_pair (setUploading_path idx) p 0
              s.files f f' hf hf'
            rw [Nat.zero_add] at hj'
            by_cases hji : j = idx
            · right; left
              have hfe : f = fentry := by
                rw [hji] at hj
                rw [hj] at hidx
                exact Option.some.inj hidx
              rw [hj', if_pos hji]
              exact ⟨hfe ▸ hst, rfl, rfl⟩
            · left
              rw [hj', if_neg hji]
          · left
            simp only [step, hidx, if_neg hst] at hf'
            rw [hf] at hf'
            exact (Option.some.inj hf').symm
  | tick tok =>
      cases htok : s.pending[tok]? with
      | none =>
          left
          simp only [step, htok] at hf'
          rw [hf] at hf'
          exact (Option.some.inj hf').symm
      | some q =>
          by_cases hq : q.isOpen = true
          · simp only [step, htok, if_pos hq, entryFor] at hf'
            rw [entryFor] at hf
            obtain ⟨j, hj, hj'⟩ := find?_mapWithIdx_pair (tickProgress_path q.fileIndex) p 0
              s.files f f' hf hf'
            rw [Nat.zero_add] at hj'
            by_cases hc : j = q.fileIndex ∧ f.state = UploadState.uploading ∧ f.progress < 90
            · right; right; left
              rw [hj', if_pos hc]
              exact ⟨hc.2.1, hc.2.2, hc.2.1, rfl⟩
            · left
              rw [hj', if_neg hc]
          · left
            simp only [step, htok, if_neg hq] at hf'
            rw [hf] at hf'
            exact (Option.some.inj hf').symm
  | providerResolve tok url =>
      cases htok : s.pending[tok]? with
      | none =>
          left
          simp only [step, htok] at hf'
          rw [hf] at hf'
          exact (Option.some.inj hf').symm
      | some q =>
          by_cases hq : q.isOpen = true
          · simp only [step, htok, if_pos hq, entryFor] at hf'
            rw [entryFor] at hf
            obtain ⟨j, hj, hj'⟩ := find?_mapWithIdx_pair (setSuccess_path q.fileIndex url) p 0
              s.files f f' hf hf'
            rw [Nat.zero_add] at hj'
            by_cases hji : j = q.fileIndex
            · right; right; right
              refine ⟨⟨tok, q, htok, hq, by rw [← hji]; exact hj⟩, Or.inl ?_⟩
              rw [hj', if_pos hji]
              exact ⟨rfl, rfl⟩
            · left
              rw [hj', if_neg hji]
          · left
            simp only [step, htok, if_neg hq] at hf'
            rw [hf] at hf'
            exact (Option.some.inj hf').symm
  | providerReject tok msg =>
      cases htok : s.pending[tok]? with
      | none =>
          left
          simp only [step, htok] at hf'
          rw [hf] at hf'
          exact (Option.some.inj hf').symm
      | some q =>
          by_cases hq : q.isOpen = true
          · simp only [step, htok, if_pos hq, entryFor] at hf'
            rw [entryFor] at hf
            obtain ⟨j, hj, hj'⟩ := find?_mapWithIdx_pair (setError_path q.fileIndex msg) p 0
              s.files f f' hf hf'
            rw [Nat.zero_add] at hj'
            by_cases hji : j = q.fileIndex
            · right; right; right
              refine ⟨⟨tok, q, htok, hq, by rw [← hji]; exact hj⟩, Or.inr ?_⟩
              rw [hj', if_pos hji]
              exact ⟨rfl, rfl⟩
            · left
              rw [hj', if_neg hji]
          · left
            simp only [step, htok, if_neg hq] at hf'
            rw [hf] at hf'
            exact (Option.some.inj hf').symm
  | remove idx =>
      left
      simp only [step, entryFor] at hf'
      rw [entryFor] at hf
      have := find?_removeAux p idx 0 s.files hreg.1 f' hf'
      rw [hf] at this
      exact (Option.some.inj this).symm

theorem getElem?_some_lt_length {α : Type} {l : List α} {i : Nat} {a : α}
    (h : l[i]? = some a) : i < l.length := by
  by_contra hc
  rw [List.getElem?_eq_none (by omega)] at h
  exact absurd h (by simp)

theorem getElem?_append_singleton {α : Type} (l : List α) (a : α) (i : Nat) (x : α)
    (h : (l ++ [a])[i]? = some x) :
    (i < l.length ∧ l[i]? = some x) ∨ (i = l.length ∧ x = a) := by
  by_cases hi : i < l.length
  · left
    exact ⟨hi, by rwa [List.getElem?_append_left hi] at h⟩
  · right
    have hlt : i < (l ++ [a]).length := getElem?_some_lt_length h
    have hlen : i = l.length := by simp at hlt; omega
    refine ⟨hlen, ?_⟩
    rw [hlen, List.getElem?_concat_length] at h
    exact (Option.some.inj h).symm

theorem mem_mapWithIdx {α : Type} (g : Nat → α → α) :
    ∀ (i : Nat) (l : List α) (a : α), a ∈ mapWithIdx g i l →
      ∃ (j : Nat) (x : α), l[j]? = some x ∧ a = g (i + j) x := by
  intro i l
  induction l generalizing i with
  | nil => intro a ha; exact absurd ha (by simp [mapWithIdx])
  | cons y t ih =>
      intro a ha
      rw [show mapWithIdx g i (y :: t) = g i y :: mapWithIdx g (i + 1) t from rfl] at ha
      rcases List.mem_cons.mp ha with h | h
      · exact ⟨0, y, by simp, by simpa using h⟩
      · obtain ⟨j, x, hj, hx⟩ := ih (i + 1) a h
        refine ⟨j + 1, x, by simpa using hj, ?_⟩
        have hij : i + 1 + j = i + (j + 1) := by omega
        rw [← hij]; exact hx

/-! ## Pending-upload liveness invariant

While no entry has been removed since an upload began, each open pending
upload still points at the uploading entry it started, and two distinct
open pending uploads never share a captured index. -/

theorem sysInv_init : sysInv initSys := by
  constructor
  · intro q hq; exact absurd hq (by simp [initSys])
  · intro i j qi qj hqi
    exact absurd hqi (by simp [initSys])

theorem step_sysInv (autoCopy : Bool) (s : Sys) (e : Event) (hsys : sysInv s)
    (hsafe : eventSafe s e = true) : sysInv (step autoCopy s e).1 := by
  obtain ⟨hlive, hdist⟩ := hsys
  cases e with
  | add p =>
      simp only [step]
      refine ⟨?_, hdist⟩
      intro q hq hopen
      obtain ⟨u, hu, hust⟩ := hlive q hq hopen
      refine ⟨u, ?_, hust⟩
      unfold addFile
      by_cases hex : ((s.files.find? (fun f => f.path == p)).isSome : Bool) = true
      · rw [if_pos hex]; exact hu
      · rw [if_neg hex]
        rw [List.getElem?_append_left (getElem?_some_lt_length hu)]
        exact hu
  | clickUpload idx =>
      cases hidx : s.files[idx]? with
      | none => simp only [step, hidx]; exact ⟨hlive, hdist⟩
      | some fentry =>
          by_cases hst : fentry.state = UploadState.idle
          · simp only [step, hidx, if_pos hst]
            have hnotius : ∀ q ∈ s.pending, q.isOpen = true → q.fileIndex ≠ idx := by
              intro q hq hopen heq
              obtain ⟨u, hu, hust⟩ := hlive q hq hopen
              rw [heq, hidx] at hu
              have : fentry = u := Option.some.inj hu
              rw [← this] at hust
              rw [hst] at hust
              exact absurd hust (by decide)
            constructor
            · intro q hq hopen
              rcases List.mem_append.mp hq with hmem | hmem
              · obtain ⟨u, hu, hust⟩ := hlive q hmem hopen
                refine ⟨u, ?_, hust⟩
                rw [show setUploading s.files idx = mapWithIdx _ 0 s.files from rfl,
                    getElem?_mapWithIdx, hu]
                simp only [Option.map_some', Nat.zero_add]
                rw [if_neg (hnotius q hmem hopen)]
              · have hqe : q = { fileIndex := idx, fileName := fentry.name, isOpen := true } := by
                  simpa using hmem
                refine ⟨{ fentry with state := UploadState.uploading, progress := 0 }, ?_, rfl⟩
                rw [show setUploading s.files idx = mapWithIdx _ 0 s.files from rfl,
                    getElem?_mapWithIdx]
                rw [hqe]
                simp only [Nat.zero_add, hidx, Option.map_some']
                simp
            · intro i j qi qj hqi hqj hoi hoj hfi
              rcases getElem?_append_singleton _ _ _ _ hqi with ⟨hilt, hqi'⟩ | ⟨hieq, hqi'⟩ <;>
                rcases getElem?_append_singleton _ _ _ _ hqj with ⟨hjlt, hqj'⟩ | ⟨hjeq, hqj'⟩
              · exact hdist i j qi qj hqi' hqj' hoi hoj hfi
              · exfalso
                have := hnotius qi (List.getElem?_mem hqi') hoi
                rw [hqj'] at hfi
                exact this hfi
              · exfalso
                have := hnotius qj (List.getElem?_mem hqj') hoj
                rw [hqi'] at hfi
                exact this hfi.symm
              · rw [hieq, hjeq]
          · simp only [step, hidx, if_neg hst]; exact ⟨hlive, hdist⟩
  | tick tok =>
      cases htok : s.pending[tok]? with
      | none => simp only [step, htok]; exact ⟨hlive, hdist⟩
      | some q0 =>
          by_cases hq0 : q0.isOpen = true
          · simp only [step, htok, if_pos hq0]
            refine ⟨?_, hdist⟩
            intro q hq hopen
            obtain ⟨u, hu, hust⟩ := hlive q hq hopen
            rw [show tickProgress s.files q0.fileIndex = mapWithIdx _ 0 s.files from rfl,
                getElem?_mapWithIdx, hu]
            simp only [Option.map_some', Nat.zero_add]
            by_cases hc : q.fileIndex = q0.fileIndex ∧ u.state = UploadState.uploading ∧
                u.progress < 90
            · rw [if_pos hc]
              exact ⟨_, rfl, hust⟩
            · rw [if_neg hc]
              exact ⟨u, rfl, hust⟩
          · simp only [step, htok, if_neg hq0]; exact ⟨hlive, hdist⟩
  | providerResolve tok url =>
      cases htok : s.pending[tok]? with
      | none => simp only [step, htok]; exact ⟨hlive, hdist⟩
      | some q0 =>
          by_cases hq0 : q0.isOpen = true
          · simp only [step, htok, if_pos hq0]
            constructor
            · intro q hq hopen
              obtain ⟨i, qo, hio, hqo⟩ := mem_mapWithIdx _ 0 s.pending q hq
              rw [Nat.zero_add] at hqo
              by_cases hit : i = tok
              · exfalso
                rw [hqo, if_pos hit] at hopen
                exact absurd hopen (by simp)
              · rw [if_neg hit] at hqo
                subst hqo
                have hfne : q.fileIndex ≠ q0.fileIndex := by
                  intro heq
                  exact hit (hdist i tok q q0 hio htok hopen hq0 heq)
                obtain ⟨u, hu, hust⟩ := hlive q (List.getElem?_mem hio) hopen
                refine ⟨u, ?_, hust⟩
                rw [show setSuccess s.files q0.fileIndex url = mapWithIdx _ 0 s.files from rfl,
                    getElem?_mapWithIdx, hu]
                simp only [Option.map_some', Nat.zero_add]
                rw [if_neg hfne]
            · intro i j qi qj hqi hqj hoi hoj hfi
              rw [show closeTok s.pending tok = mapWithIdx _ 0 s.pending from rfl,
                  getElem?_mapWithIdx] at hqi hqj
              obtain ⟨qio, hqio, hqi'⟩ := Option.map_eq_some'.mp hqi
              obtain ⟨qjo, hqjo, hqj'⟩ := Option.map_eq_some'.mp hqj
              rw [Nat.zero_add] at hqi' hqj'
              by_cases hit : i = tok
              · exfalso
                rw [← hqi', if_pos hit] at hoi
                exact absurd hoi (by simp)
              · by_cases hjt : j = tok
                · exfalso
                  rw [← hqj', if_pos hjt] at hoj
                  exact absurd hoj (by simp)
                · rw [if_neg hit] at hqi'
                  rw [if_neg hjt] at hqj'
                  subst hqi'
                  subst hqj'
                  exact hdist i j qio qjo hqio hqjo hoi hoj hfi
          · simp only [step, htok, if_neg hq0]; exact ⟨hlive, hdist⟩
  | providerReject tok msg =>
      cases htok : s.pending[tok]? with
      | none => simp only [step, htok]; exact ⟨hlive, hdist⟩
      | some q0 =>
          by_cases hq0 : q0.isOpen = true
          · simp only [step, htok, if_pos hq0]
            constructor
            · intro q hq hopen
              obtain ⟨i, qo, hio, hqo⟩ := mem_mapWithIdx _ 0 s.pending q hq
              rw [Nat.zero_add] at hqo
              by_cases hit : i = tok
              · exfalso
                rw [hqo, if_pos hit] at hopen
                exact absurd hopen (by simp)
              · rw [if_neg hit] at hqo
                subst hqo
                have hfne : q.fileIndex ≠ q0.fileIndex := by
                  intro heq
                  exact hit (hdist i tok q q0 hio htok hopen hq0 heq)
                obtain ⟨u, hu, hust⟩ := hlive q (List.getElem?_mem hio) hopen
                refine ⟨u, ?_, hust⟩
                rw [show setError s.files q0.fileIndex msg = mapWithIdx _ 0 s.files from rfl,
                    getElem?_mapWithIdx, hu]
                simp only [Option.map_some', Nat.zero_add]
                rw [if_neg hfne]
            · intro i j qi qj hqi hqj hoi hoj hfi
              rw [show closeTok s.pending tok = mapWithIdx _ 0 s.pending from rfl,
                  getElem?_mapWithIdx] at hqi hqj
              obtain ⟨qio, hqio, hqi'⟩ := Option.map_eq_some'.mp hqi
              obtain ⟨qjo, hqjo, hqj'⟩ := Option.map_eq_some'.mp hqj
              rw [Nat.zero_add] at hqi' hqj'
              by_cases hit : i = tok
              · exfalso
                rw [← hqi', if_pos hit] at hoi
                exact absurd hoi (by simp)
              · by_cases hjt : j = tok
                · exfalso
                  rw [← hqj', if_pos hjt] at hoj
                  exact absurd hoj (by simp)
                · rw [if_neg hit] at hqi'
                  rw [if_neg hjt] at hqj'
                  subst hqi'
                  subst hqj'
                  exact hdist i j qio qjo hqio hqjo hoi hoj hfi
          · simp only [step, htok, if_neg hq0]; exact ⟨hlive, hdist⟩
  | remove idx =>
      simp only [eventSafe, noOpenB] at hsafe
      have hnone : ∀ q ∈ s.pending, q.isOpen = false := by
        intro q hq
        have := (List.all_eq_true.mp hsafe) q hq
        simpa using this
      simp only [step]
      constructor
      · intro q hq hopen
        rw [hnone q hq] at hopen
        exact absurd hopen (by simp)
      · intro i j qi qj hqi hqj hoi hoj hfi
        rw [hnone qi (List.getElem?_mem hqi)] at hoi
        exact absurd hoi (by simp)

/-! ## State-machine order and progress relation -/

theorem stepOkB_refl (st : UploadState) : stepOkB st st = true := by
  cases st <;> rfl

theorem progressStep_refl {f : FileUpload} (h : entryInv f) : progressStep f f := by
  intro hu
  refine ⟨fun _ => ⟨Or.inl rfl, h.2.2 hu⟩, fun hs => ?_, fun he => ?_⟩
  · rw [hu] at hs
    exact absurd hs (by decide)
  · rw [hu] at he
    exact absurd he (by decide)

/-- One step moves each surviving entry along the specified machine and
obeys the progress discipline, given the registry invariant and, for the
state-machine part, the pending-upload invariant. -/
theorem step_entry_ok (autoCopy : Bool) (s : Sys) (e : Event)
    (hreg : regInv s) (hsys : sysInv s)
    (p : String) (f f' : FileUpload)
    (hf : entryFor s p = some f) (hf' : entryFor (step autoCopy s e).1 p = some f') :
    stepOkB f.state f'.state = true ∧ progressStep f f' := by
  have hmem : f ∈ s.files := List.mem_of_find?_eq_some hf
  have hinv : entryInv f := hreg.2 f hmem
  rcases step_entry_cases autoCopy s e hreg p f f' hf hf' with h | h | h | h
  · rw [h]
    exact ⟨stepOkB_refl f.state, progressStep_refl hinv⟩
  · obtain ⟨h1, h2, h3⟩ := h
    constructor
    · rw [h1, h2]; rfl
    · intro hu
      rw [h1] at hu
      exact absurd hu (by decide)
  · obtain ⟨h1, h2, h3, h4⟩ := h
    constructor
    · rw [h1, h3]; rfl
    · intro hu
      refine ⟨fun _ => ⟨Or.inr h4, ?_⟩, fun hs => ?_, fun he => ?_⟩
      · have hmod : f.progress % 10 = 0 := hinv.2.1
        omega
      · rw [h3] at hs
        exact absurd hs (by decide)
      · rw [h3] at he
        exact absurd he (by decide)
  · obtain ⟨⟨tok, q, htok, hq, hfi⟩, hterm⟩ := h
    obtain ⟨u, hu, hust⟩ := hsys.1 q (List.getElem?_mem htok) hq
    have hfu : f = u := by
      rw [hfi] at hu
      exact Option.some.inj hu
    have hfst : f.state = UploadState.uploading := by rw [hfu]; exact hust
    rcases hterm with ⟨hs', hp⟩ | ⟨hs', hp⟩
    · constructor
      · rw [hfst, hs']; rfl
      · intro _
        refine ⟨fun hupl => ?_, fun _ => hp, fun he => ?_⟩
        · rw [hs'] at hupl
          exact absurd hupl (by decide)
        · rw [hs'] at he
          exact absurd he (by decide)
    · constructor
      · rw [hfst, hs']; rfl
      · intro _
        refine ⟨fun hupl => ?_, fun hs => ?_, fun _ => hp⟩
        · rw [hs'] at hupl
          exact absurd hupl (by decide)
        · rw [hs'] at hs
          exact absurd hs (by decide)

/-- The progress discipline of one step holds on every trace, safe or
not: it needs only the registry invariant. -/
theorem step_progress (autoCopy : Bool) (s : Sys) (e : Event)
    (hreg : regInv s) (p : String) (f f' : FileUpload)
    (hf : entryFor s p = some f) (hf' : entryFor (step autoCopy s e).1 p = some f') :
    progressStep f f' := by
  have hmem : f ∈ s.files := List.mem_of_find?_eq_some hf
  have hinv : entryInv f := hreg.2 f hmem
  rcases step_entry_cases autoCopy s e hreg p f f' hf hf' with h | h | h | h
  · rw [h]
    exact progressStep_refl hinv
  · intro hu
    rw [h.1] at hu
    exact absurd hu (by decide)
  · obtain ⟨h1, h2, h3, h4⟩ := h
    intro hu
    refine ⟨fun _ => ⟨Or.inr h4, ?_⟩, fun hs => ?_, fun he => ?_⟩
    · have hmod : f.progress % 10 = 0 := hinv.2.1
      omega
    · rw [h3] at hs
      exact absurd hs (by decide)
    · rw [h3] at he
      exact absurd he (by decide)
  · obtain ⟨_, hterm⟩ := h
    rcases hterm with ⟨hs', hp⟩ | ⟨hs', hp⟩
    · intro _
      refine ⟨fun hupl => ?_, fun _ => hp, fun he => ?_⟩
      · rw [hs'] at hupl
        exact absurd hupl (by decide)
      · rw [hs'] at he
        exact absurd he (by decide)
    · intro _
      refine ⟨fun hupl => ?_, fun hs => ?_, fun _ => hp⟩
      · rw [hs'] at hupl
        exact absurd hupl (by decide)
      · rw [hs'] at hs
        exact absurd hs (by decide)

/-! ## Trace-level lemmas -/

theorem runState_append_one (autoCopy : Bool) :
    ∀ (evs : List Event) (s : Sys) (e : Event),
      runState autoCopy s (evs ++ [e]) = (step autoCopy (runState autoCopy s evs) e).1 := by
  intro evs
  induction evs with
  | nil => intro s e; rfl
  | cons x t ih => intro s e; exact ih (step autoCopy s x).1 e

theorem run_regInv (autoCopy : Bool) :
    ∀ (evs : List Event) (s : Sys), regInv s → regInv (runState autoCopy s evs) := by
  intro evs
  induction evs with
  | nil => intro s h; exact h
  | cons x t ih => intro s h; exact ih (step autoCopy s x).1 (step_regInv autoCopy s x h)

theorem run_sysInv (autoCopy : Bool) :
    ∀ (evs : List Event) (s : Sys), sysInv s → remSafeB autoCopy s evs = true →
      sysInv (runState autoCopy s evs) := by
  intro evs
  induction evs with
  | nil => intro s h _; exact h
  | cons x t ih =>
      intro s h hsafe
      rw [show remSafeB autoCopy s (x :: t) =
            (eventSafe s x && remSafeB autoCopy (step autoCopy s x).1 t) from rfl] at hsafe
      rw [Bool.and_eq_true] at hsafe
      obtain ⟨h1, h2⟩ := hsafe
      exact ih (step autoCopy s x).1 (step_sysInv autoCopy s x h h1) h2

theorem remSafeB_append_one (autoCopy : Bool) :
    ∀ (evs : List Event) (s : Sys) (e : Event),
      remSafeB autoCopy s (evs ++ [e]) = true →
      remSafeB autoCopy s evs = true ∧ eventSafe (runState autoCopy s evs) e = true := by
  intro evs
  induction evs with
  | nil =>
      intro s e h
      rw [show remSafeB autoCopy s ([] ++ [e]) =
            (eventSafe s e && remSafeB autoCopy (step autoCopy s e).1 []) from rfl] at h
      rw [Bool.and_eq_true] at h
      exact ⟨rfl, h.1⟩
  | cons x t ih =>
      intro s e h
      rw [show remSafeB autoCopy s ((x :: t) ++ [e]) =
            (eventSafe s x && remSafeB autoCopy (step autoCopy s x).1 (t ++ [e])) from rfl] at h
      rw [Bool.and_eq_true] at h
      obtain ⟨h1, h2⟩ := h
      obtain ⟨h3, h4⟩ := ih (step autoCopy s x).1 e h2
      refine ⟨?_, h4⟩
      rw [show remSafeB autoCopy s (x :: t) =
            (eventSafe s x && remSafeB autoCopy (step autoCopy s x).1 t) from rfl]
      rw [Bool.and_eq_true]
      exact ⟨h1, h3⟩

/-! ## Further helper lemmas for the claim theorems -/

theorem find?_append_none {α : Type} (q : α → Bool) :
    ∀ {l₁ l₂ : List α}, l₁.find? q = none → (l₁ ++ l₂).find? q = l₂.find? q := by
  intro l₁ l₂ h
  induction l₁ with
  | nil => simp
  | cons x t ih =>
      rw [find?_cons_eq_if] at h
      rw [List.cons_append, find?_cons_eq_if]
      by_cases hx : q x
      · rw [if_pos hx] at h
        exact absurd h (by simp)
      · rw [if_neg hx] at h ⊢
        exact ih h

theorem append_left_ne_empty (a x : String) (h : a ≠ "") : (a ++ x) ≠ "" := by
  intro hc
  apply h
  have h2 : (a ++ x).data = ("" : String).data := congrArg String.data hc
  rw [String.data_append] at h2
  simp at h2
  cases a with
  | mk l =>
      have h3 : l = [] := h2.1
      rw [h3]

/-! ## The claims -/

/-- C1: the spec requires that removing an entry while its upload is in
flight and then letting the provider call resolve is a no-op apart from
not throwing: no resurrection, no write into any other entry, no
Notification Dispatcher call.  The code violates this: the stale
completion closure still addresses entries by the captured list index and
unconditionally notifies.  Evaluating the trace -- add "a", add "b",
begin the upload of "a" (index 0), remove "a", then resolve with
"http://u" -- the resolution flips the surviving entry "b" (now at index
0) to Success with the stale URL and fires the notification for "a". -/
theorem c1_stale_completion_corrupts_other_entry :
    runSys false initSys
      [Event.add "a", Event.add "b", Event.clickUpload 0, Event.remove 0,
       Event.providerResolve 0 "http://u"] =
    ({ files := [{ path := "b", name := "b", state := UploadState.success, progress := 100,
                   url := some "http://u", error := none }],
       pending := [{ fileIndex := 0, fileName := "a", isOpen := false }] },
     [Effect.showNotify "FastDrop - Upload Complete"
        "a uploaded successfully! Click to view in app." "http://u"]) := by
  decide

/-- C2 counterexample: the claim as stated fails on the code.  In the
trace -- add "a" and "b", begin both uploads, resolve the upload of "b"
(entry "b" reaches Success), remove "a", then let the still-pending
upload of "a" reject -- the stale rejection addresses index 0, which
entry "b" now occupies, so entry "b" is observed in Success and then in
Error: a transition leaves Success. -/
theorem c2_counterexample_success_left :
    ((entryFor (runState false initSys
        [Event.add "a", Event.add "b", Event.clickUpload 0, Event.clickUpload 1,
         Event.providerResolve 1 "u", Event.remove 0]) "b").map (fun f => f.state)
      = some UploadState.success)
    ∧ ((entryFor (runState false initSys
        [Event.add "a", Event.add "b", Event.clickUpload 0, Event.clickUpload 1,
         Event.providerResolve 1 "u", Event.remove 0,
         Event.providerReject 0 "boom"]) "b").map (fun f => f.state)
      = some UploadState.error)
    ∧ stepOkB UploadState.success UploadState.error = false := by
  decide

/-- C2 amended: in every trace from the empty registry in which no entry
is removed while a provider call is in flight, each adjacent observation
of the entry of any fixed path follows the machine Idle to Uploading to
Success or Error: begin only moves Idle to Uploading, and no transition
leaves Success or Error. -/
theorem c2_state_machine_safe_traces (autoCopy : Bool) (evs : List Event) (e : Event)
    (p : String) (f f' : FileUpload)
    (hsafe : remSafeB autoCopy initSys evs = true)
    (hf : entryFor (runState autoCopy initSys evs) p = some f)
    (hf' : entryFor (runState autoCopy initSys (evs ++ [e])) p = some f') :
    stepOkB f.state f'.state = true := by
  have hreg := run_regInv autoCopy evs initSys regInv_init
  have hsys := run_sysInv autoCopy evs initSys sysInv_init hsafe
  rw [runState_append_one] at hf'
  exact (step_entry_ok autoCopy (runState autoCopy initSys evs) e hreg hsys p f f' hf hf').1

/-- C2 witness: a concrete safe trace; the resolve step observes the
entry of "a" moving from Uploading to Success, an allowed transition. -/
theorem c2_state_machine_safe_traces_witness :
    remSafeB false initSys [Event.add "a", Event.clickUpload 0] = true ∧
    stepOkB UploadState.uploading UploadState.success = true :=
  ⟨by decide,
   c2_state_machine_safe_traces false [Event.add "a", Event.clickUpload 0]
     (Event.providerResolve 0 "u") "a"
     { path := "a", name := "a", state := UploadState.uploading, progress := 0,
       url := none, error := none }
     { path := "a", name := "a", state := UploadState.success, progress := 100,
       url := some "u", error := none }
     (by decide) (by decide) (by decide)⟩

/-- C3: on every trace from the empty registry, the entry of any fixed
path always has progress an integer multiple of 10 in [0,100], at most 90
while Uploading; and across any adjacent observation pair, while the
entry stays in Uploading its progress is unchanged or gains exactly the
tick step 10 and stays at most 90, while a terminal transition out of
Uploading sets progress to exactly 100 (Success) or exactly 0 (Error). -/
theorem c3_progress_invariant (autoCopy : Bool) (evs : List Event) (e : Event)
    (p : String) (f f' : FileUpload)
    (hf : entryFor (runState autoCopy initSys evs) p = some f)
    (hf' : entryFor (runState autoCopy initSys (evs ++ [e])) p = some f') :
    f.progress ≤ 100 ∧ f.progress % 10 = 0 ∧
    (f.state = UploadState.uploading → f.progress ≤ 90) ∧ progressStep f f' := by
  have hreg := run_regInv autoCopy evs initSys regInv_init
  have hinv : entryInv f := hreg.2 f (List.mem_of_find?_eq_some hf)
  rw [runState_append_one] at hf'
  exact ⟨hinv.1, hinv.2.1, hinv.2.2,
    step_progress autoCopy (runState autoCopy initSys evs) e hreg p f f' hf hf'⟩

/-- C3 witness: after one tick the entry of "a" is Uploading at 10;
a further tick keeps it Uploading at 20, within the claimed bounds. -/
theorem c3_progress_invariant_witness :
    entryFor (runState false initSys [Event.add "a", Event.clickUpload 0, Event.tick 0]) "a"
      = some { path := "a", name := "a", state := UploadState.uploading, progress := 10,
               url := none, error := none } ∧
    (10 ≤ 100 ∧ 10 % 10 = 0 ∧
      (UploadState.uploading = UploadState.uploading → 10 ≤ 90) ∧
      progressStep
        { path := "a", name := "a", state := UploadState.uploading, progress := 10,
          url := none, error := none }
        { path := "a", name := "a", state := UploadState.uploading, progress := 20,
          url := none, error := none }) :=
  ⟨by decide,
   c3_progress_invariant false [Event.add "a", Event.clickUpload 0, Event.tick 0]
     (Event.tick 0) "a"
     { path := "a", name := "a", state := UploadState.uploading, progress := 10,
       url := none, error := none }
     { path := "a", name := "a", state := UploadState.uploading, progress := 20,
       url := none, error := none }
     (by decide) (by decide)⟩

/-- C4: credential resolution for the credentialed cloud store.
Persisted credentials take precedence over the environment pair; with
none persisted the two environment strings are used; and with both
sources empty the upload fails before any network call, with the
configuration message wrapped by the provider catch, and the network
call count is zero. -/
theorem c4_credential_resolution (cfg : ConfigContent) (envId envSecret : String)
    (net : DriveNetModel) (g : CredData) :
    (persistedCreds cfg = some g →
      resolveCredentials cfg envId envSecret = (g.clientId, g.clientSecret)) ∧
    (persistedCreds cfg = none →
      resolveCredentials cfg envId envSecret = (envId, envSecret)) ∧
    (persistedCreds cfg = none → envId = "" → envSecret = "" →
      uploadToGoogleDrive cfg envId envSecret net =
        (Except.error (jsErr ("Google Drive upload failed: Error: "
          ++ "Google Drive credentials not configured. "
          ++ "Please configure them in the settings.")), 0)) := by
  have hfall : persistedCreds cfg = none →
      ∀ a b : String, resolveCredentials cfg a b = (a, b) := by
    intro h a b
    cases cfg with
    | parsed c =>
        simp only [persistedCreds] at h
        simp only [resolveCredentials, h]
    | missing => rfl
    | unparsable => rfl
  refine ⟨?_, fun h => hfall h envId envSecret, ?_⟩
  · intro h
    cases cfg with
    | parsed c =>
        simp only [persistedCreds] at h
        simp only [resolveCredentials, h]
    | missing => exact absurd h (by simp [persistedCreds])
    | unparsable => exact absurd h (by simp [persistedCreds])
  · intro h h1 h2
    subst h1
    subst h2
    unfold uploadToGoogleDrive
    rw [hfall h "" ""]
    rfl

/-- C4 witness: a missing config with empty environment strings fails
with the configuration error and zero network calls; the mocked network
would have succeeded had it been called. -/
theorem c4_credential_resolution_witness :
    persistedCreds ConfigContent.missing = none ∧
    uploadToGoogleDrive ConfigContent.missing "" ""
        { createResult := Except.ok (some "id"), permResult := Except.ok () } =
      (Except.error (jsErr ("Google Drive upload failed: Error: "
        ++ "Google Drive credentials not configured. "
        ++ "Please configure them in the settings.")), 0) :=
  ⟨by decide,
   (c4_credential_resolution ConfigContent.missing "" ""
     { createResult := Except.ok (some "id"), permResult := Except.ok () }
     { clientId := "x", clientSecret := "y" }).2.2 (by decide) (by decide) (by decide)⟩

/-- C5 counterexample: the claim as stated fails on the code.  For the
0x0.st provider failing with status 500 and body "oops", the provider
error message is not propagated unmodified: the IPC handler catch wraps
it as `Upload failed: Error: <provider message>`, so the message the
Orchestrator receives differs from the provider message. -/
theorem c5_counterexample_wrapped_message :
    uploadTo0x0 { status := 500, statusText := "Internal Server Error", body := "oops" }
      = Except.error (jsErr "Upload to 0x0.st failed: 500 Internal Server Error - oops")
    ∧ (uploadFileHandler (Except.ok ()) Service.zeroxzero
        { status := 500, statusText := "Internal Server Error", body := "oops" }
        ConfigContent.missing "" ""
        { createResult := Except.ok none, permResult := Except.ok () }).1
      = Except.error
          (jsErr "Upload failed: Error: Upload to 0x0.st failed: 500 Internal Server Error - oops")
    ∧ ("Upload failed: Error: Upload to 0x0.st failed: 500 Internal Server Error - oops"
        ≠ "Upload to 0x0.st failed: 500 Internal Server Error - oops") := by
  decide

/-- Every error outcome of uploadToGoogleDrive carries a message opening
with the provider catch prefix (hence nonempty), and at most two network
calls were made, each at most once. -/
theorem uploadToGoogleDrive_error_shape (cfg : ConfigContent) (envId envSecret : String)
    (net : DriveNetModel) (e : JsError) (n : Nat)
    (h : uploadToGoogleDrive cfg envId envSecret net = (Except.error e, n)) :
    (∃ m, e.message = "Google Drive upload failed: " ++ m) ∧ n ≤ 2 := by
  unfold uploadToGoogleDrive at h
  dsimp only at h
  split at h
  · simp only [Prod.mk.injEq, Except.error.injEq] at h
    obtain ⟨he, hn⟩ := h
    subst he
    subst hn
    exact ⟨⟨_, rfl⟩, by omega⟩
  · split at h
    · simp only [Prod.mk.injEq, Except.error.injEq] at h
      obtain ⟨he, hn⟩ := h
      subst he
      subst hn
      exact ⟨⟨_, rfl⟩, by omega⟩
    · simp only [Prod.mk.injEq, Except.error.injEq] at h
      obtain ⟨he, hn⟩ := h
      subst he
      subst hn
      exact ⟨⟨_, rfl⟩, by omega⟩
    · split at h
      · simp only [Prod.mk.injEq, Except.error.injEq] at h
        obtain ⟨he, hn⟩ := h
        subst he
        subst hn
        exact ⟨⟨_, rfl⟩, by omega⟩
      · simp only [Prod.mk.injEq] at h
        exact absurd h.1 (by simp)

/-- C5 amended: for every failing upload, of either provider, the
provider error reaches the Orchestrator wrapped exactly once by the IPC
handler catch as `Upload failed: Error: <provider message>` -- the
provider message kept verbatim as a suffix (for the credentialed cloud
store that message is itself the provider catch's own
`Google Drive upload failed: Error: <cause>`); the renderer stores the
received message verbatim as the Error entry's errorMessage; and the
upload is never retried: one network call for a failing 0x0.st upload,
at most two (each made at most once) for a failing Drive upload. -/
theorem c5_error_propagation (resp : HttpResponse) (cfg : ConfigContent)
    (envId envSecret : String) (net : DriveNetModel) (files : List FileUpload)
    (idx : Nat) (f : FileUpload) (msg : String)
    (hnot2xx : respOk resp = false) :
    uploadFileHandler (Except.ok ()) Service.zeroxzero resp cfg envId envSecret net
      = (Except.error (jsErr ("Upload failed: Error: "
          ++ ("Upload to 0x0.st failed: " ++ toString resp.status ++ " " ++ resp.statusText
            ++ " - " ++ resp.body))), 1)
    ∧ (∀ (e : JsError) (n : Nat),
        uploadToGoogleDrive cfg envId envSecret net = (Except.error e, n) →
        uploadFileHandler (Except.ok ()) Service.googledrive resp cfg envId envSecret net
          = (Except.error (jsErr ("Upload failed: Error: " ++ e.message)), n) ∧ n ≤ 2)
    ∧ (files[idx]? = some f →
        (setError files idx msg)[idx]?
          = some { f with state := UploadState.error, progress := 0, error := some msg }) := by
  refine ⟨?_, ?_, ?_⟩
  · have hne0 : ("Upload to 0x0.st failed: " : String) ≠ "" := by decide
    have hne1 := append_left_ne_empty "Upload to 0x0.st failed: " (toString resp.status) hne0
    have hne2 := append_left_ne_empty ("Upload to 0x0.st failed: " ++ toString resp.status)
      " " hne1
    have hne3 := append_left_ne_empty
      ("Upload to 0x0.st failed: " ++ toString resp.status ++ " ") resp.statusText hne2
    have hne4 := append_left_ne_empty
      ("Upload to 0x0.st failed: " ++ toString resp.status ++ " " ++ resp.statusText)
      " - " hne3
    have hne := append_left_ne_empty
      ("Upload to 0x0.st failed: " ++ toString resp.status ++ " " ++ resp.statusText ++ " - ")
      resp.body hne4
    unfold uploadFileHandler uploadTo0x0
    rw [hnot2xx]
    simp only [Bool.false_eq_true, if_false]
    unfold errToString jsErr
    rw [if_neg hne]
    rw [← String.append_assoc]
    have hlit : ("Upload failed: " ++ "Error: ") = "Upload failed: Error: " := by decide
    rw [hlit]
  · intro e n h
    obtain ⟨⟨m, hm⟩, hn⟩ := uploadToGoogleDrive_error_shape cfg envId envSecret net e n h
    refine ⟨?_, hn⟩
    unfold uploadFileHandler
    rw [h]
    dsimp only
    unfold errToString
    rw [if_neg (by rw [hm]; exact append_left_ne_empty _ _ (by decide))]
    rw [← String.append_assoc]
    have hlit : ("Upload failed: " ++ "Error: ") = "Upload failed: Error: " := by decide
    rw [hlit]
  · intro hidx
    rw [show setError files idx msg = mapWithIdx _ 0 files from rfl,
        getElem?_mapWithIdx, hidx]
    simp only [Option.map_some', Nat.zero_add]
    simp

/-- C5 witness: the concrete 500 response, wrapped once by the handler,
and a concrete failing Drive upload (stored credentials present, the
object-creation call throwing "boom"), double-wrapped, with one network
call; the renderer stores the wrapped message as the entry's error. -/
theorem c5_error_propagation_witness :
    respOk { status := 500, statusText := "Internal Server Error", body := "oops" } = false ∧
    uploadFileHandler (Except.ok ()) Service.zeroxzero
        { status := 500, statusText := "Internal Server Error", body := "oops" }
        (ConfigContent.parsed
          { googleCredentials := some { clientId := "i", clientSecret := "s" },
            autoStart := none, autoCopy := none }) "" ""
        { createResult := Except.error "boom", permResult := Except.ok () }
      = (Except.error (jsErr ("Upload failed: Error: "
          ++ ("Upload to 0x0.st failed: " ++ toString (500 : Nat) ++ " "
            ++ "Internal Server Error" ++ " - " ++ "oops"))), 1) ∧
    uploadToGoogleDrive
        (ConfigContent.parsed
          { googleCredentials := some { clientId := "i", clientSecret := "s" },
            autoStart := none, autoCopy := none }) "" ""
        { createResult := Except.error "boom", permResult := Except.ok () }
      = (Except.error (jsErr "Google Drive upload failed: Error: boom"), 1) ∧
    uploadFileHandler (Except.ok ()) Service.googledrive
        { status := 500, statusText := "Internal Server Error", body := "oops" }
        (ConfigContent.parsed
          { googleCredentials := some { clientId := "i", clientSecret := "s" },
            autoStart := none, autoCopy := none }) "" ""
        { createResult := Except.error "boom", permResult := Except.ok () }
      = (Except.error (jsErr ("Upload failed: Error: "
          ++ "Google Drive upload failed: Error: boom")), 1) ∧
    (1 : Nat) ≤ 2 :=
  ⟨by decide,
   (c5_error_propagation { status := 500, statusText := "Internal Server Error", body := "oops" }
     (ConfigContent.parsed
       { googleCredentials := some { clientId := "i", clientSecret := "s" },
         autoStart := none, autoCopy := none }) "" ""
     { createResult := Except.error "boom", permResult := Except.ok () }
     [] 0 { path := "", name := "", state := UploadState.idle, progress := 0,
            url := none, error := none } "" (by decide)).1,
   by decide,
   ((c5_error_propagation { status := 500, statusText := "Internal Server Error", body := "oops" }
     (ConfigContent.parsed
       { googleCredentials := some { clientId := "i", clientSecret := "s" },
         autoStart := none, autoCopy := none }) "" ""
     { createResult := Except.error "boom", permResult := Except.ok () }
     [] 0 { path := "", name := "", state := UploadState.idle, progress := 0,
            url := none, error := none } "" (by decide)).2.1
     (jsErr "Google Drive upload failed: Error: boom") 1 (by decide)).1,
   ((c5_error_propagation { status := 500, statusText := "Internal Server Error", body := "oops" }
     (ConfigContent.parsed
       { googleCredentials := some { clientId := "i", clientSecret := "s" },
         autoStart := none, autoCopy := none }) "" ""
     { createResult := Except.error "boom", permResult := Except.ok () }
     [] 0 { path := "", name := "", state := UploadState.idle, progress := 0,
            url := none, error := none } "" (by decide)).2.1
     (jsErr "Google Drive upload failed: Error: boom") 1 (by decide)).2⟩

/-- C6: adding a path that already has an entry returns the registry
unchanged; otherwise a fresh Idle entry with progress 0 is appended; a
second add of the same path is the identity, and starting without the
path, two adds yield exactly one entry of that path. -/
theorem c6_add_idempotent (files : List FileUpload) (p : String) :
    ((∃ f ∈ files, f.path = p) → addFile files p = files) ∧
    ((¬ ∃ f ∈ files, f.path = p) →
      addFile files p = files ++
        [{ path := p, name := displayName p, state := UploadState.idle,
           progress := 0, url := none, error := none }]) ∧
    addFile (addFile files p) p = addFile files p ∧
    ((¬ ∃ f ∈ files, f.path = p) →
      (addFile (addFile files p) p).countP (fun f => f.path == p) = 1) := by
  have key : (((files.find? (fun f => f.path == p)).isSome : Bool) = true)
      ↔ ∃ f ∈ files, f.path = p := by
    simp [List.find?_isSome]
  have h1 : (∃ f ∈ files, f.path = p) → addFile files p = files := by
    intro hex
    unfold addFile
    rw [if_pos (key.mpr hex)]
  have h2 : (¬ ∃ f ∈ files, f.path = p) →
      addFile files p = files ++
        [{ path := p, name := displayName p, state := UploadState.idle,
           progress := 0, url := none, error := none }] := by
    intro hnex
    unfold addFile
    rw [if_neg (fun hc => hnex (key.mp hc))]
  have h3 : addFile (addFile files p) p = addFile files p := by
    by_cases hex : ∃ f ∈ files, f.path = p
    · rw [h1 hex, h1 hex]
    · have hnone : files.find? (fun f => f.path == p) = none := by
        cases hfind : files.find? (fun f => f.path == p) with
        | none => rfl
        | some a =>
            exfalso
            apply hex
            exact ⟨a, List.mem_of_find?_eq_some hfind, by simpa using List.find?_some hfind⟩
      have hfind : (files ++
          ([{ path := p, name := displayName p, state := UploadState.idle,
              progress := 0, url := none, error := none }] : List FileUpload)).find?
            (fun f => f.path == p)
          = some { path := p, name := displayName p, state := UploadState.idle,
                   progress := 0, url := none, error := none } := by
        rw [find?_append_none _ hnone, find?_cons_eq_if, if_pos (by simp)]
      rw [h2 hex]
      unfold addFile
      rw [hfind]
      simp
  refine ⟨h1, h2, h3, ?_⟩
  intro hnex
  rw [h3, h2 hnex, List.countP_append]
  have hz : files.countP (fun f => f.path == p) = 0 :=
    List.countP_eq_zero.mpr (fun a ha hpred => hnex ⟨a, ha, by simpa using hpred⟩)
  rw [hz]
  simp [List.countP_cons]

/-- C6 witness: from the empty registry, adding the path "a" twice gives
one entry, freshly Idle at progress 0. -/
theorem c6_add_idempotent_witness :
    (¬ ∃ f ∈ ([] : List FileUpload), f.path = "a") ∧
    (addFile (addFile [] "a") "a").countP (fun f => f.path == "a") = 1 :=
  ⟨by decide, (c6_add_idempotent [] "a").2.2.2 (by decide)⟩

/-- C7: the anonymous host: every non-2xx response (response.ok is
exactly status in [200,300)) fails with the message carrying the status
and body; a 2xx response succeeds with exactly the response body with
surrounding whitespace trimmed, nothing else parsed. -/
theorem c7_anonymous_host (resp : HttpResponse) :
    (respOk resp = false →
      uploadTo0x0 resp = Except.error (jsErr ("Upload to 0x0.st failed: "
        ++ toString resp.status ++ " " ++ resp.statusText ++ " - " ++ resp.body))) ∧
    (respOk resp = true → uploadTo0x0 resp = Except.ok (jsTrim resp.body)) ∧
    respOk resp = (decide (200 ≤ resp.status) && decide (resp.status < 300)) := by
  refine ⟨?_, ?_, rfl⟩
  · intro h
    unfold uploadTo0x0
    rw [h]
    simp
  · intro h
    unfold uploadTo0x0
    rw [h]
    rfl

/-- C7 witness: a 200 response whose body carries surrounding whitespace
yields exactly the trimmed body. -/
theorem c7_anonymous_host_witness :
    respOk { status := 200, statusText := "OK", body := "  https://0x0.st/abc.txt\n" } = true ∧
    uploadTo0x0 { status := 200, statusText := "OK", body := "  https://0x0.st/abc.txt\n" }
      = Except.ok (jsTrim "  https://0x0.st/abc.txt\n") ∧
    jsTrim "  https://0x0.st/abc.txt\n" = "https://0x0.st/abc.txt" :=
  ⟨by decide,
   (c7_anonymous_host
      { status := 200, statusText := "OK", body := "  https://0x0.st/abc.txt\n" }).2.1
     (by decide),
   by decide⟩

/-- C8 counterexample: the claim as stated fails on the code.  With
autoCopyOnSuccess enabled, resolving with the empty string still performs
the Success transition (the entry of "a" moves from Uploading to Success)
but, because the code guards both side effects on the truthiness of the
raw url, no clipboard write happens at all. -/
theorem c8_counterexample_empty_url :
    ((entryFor (runState true initSys [Event.add "a", Event.clickUpload 0]) "a").map
        (fun f => f.state) = some UploadState.uploading)
    ∧ ((entryFor (runState true initSys
        [Event.add "a", Event.clickUpload 0, Event.providerResolve 0 ""]) "a").map
        (fun f => f.state) = some UploadState.success)
    ∧ runEffects true initSys [Event.add "a", Event.clickUpload 0, Event.providerResolve 0 ""]
        = [] := by
  decide

/-- C8 amended: on every Success transition with autoCopyOnSuccess
enabled whose resolved url is nonempty, the step emits exactly one
clipboard write carrying exactly the trimmed url -- the same string
stored as the entry's resultUrl -- and it precedes the single
notification; a providerReject step emits no effect at all, so no
notification is sent on Error. -/
theorem c8_autocopy_effects (s : Sys) (tok : Nat) (q : PendingUpload)
    (url msg : String) (autoCopy : Bool) (f : FileUpload)
    (htok : s.pending[tok]? = some q) (hopen : q.isOpen = true) (hne : url ≠ "") :
    (step true s (Event.providerResolve tok url)).2
      = [Effect.clipboardWrite (jsTrim url),
         Effect.showNotify "FastDrop - Upload Complete"
           (notifyBody true q.fileName) (jsTrim url)]
    ∧ (s.files[q.fileIndex]? = some f →
        (step true s (Event.providerResolve tok url)).1.files[q.fileIndex]?
          = some { f with state := UploadState.success, progress := 100, url := some (jsTrim url) })
    ∧ (step autoCopy s (Event.providerReject tok msg)).2 = [] := by
  refine ⟨?_, ?_, ?_⟩
  · simp only [step, htok, if_pos hopen]
    rw [if_pos ⟨trivial, hne⟩, if_pos hne]
    rfl
  · intro hfi
    simp only [step, htok, if_pos hopen]
    rw [show setSuccess s.files q.fileIndex url = mapWithIdx _ 0 s.files from rfl,
        getElem?_mapWithIdx, hfi]
    simp only [Option.map_some', Nat.zero_add]
    simp
  · simp only [step, htok, if_pos hopen]

/-- C8 witness: a concrete open pending upload resolving with a padded
url: one clipboard write with the trimmed url, before the notification;
the rejection of the same pending upload emits nothing. -/
theorem c8_autocopy_effects_witness :
    ([({ fileIndex := 0, fileName := "a", isOpen := true } : PendingUpload)][0]?
        = some { fileIndex := 0, fileName := "a", isOpen := true }) ∧
    (step true
        { files := [{ path := "a", name := "a", state := UploadState.uploading,
                      progress := 30, url := none, error := none }],
          pending := [{ fileIndex := 0, fileName := "a", isOpen := true }] }
        (Event.providerResolve 0 " https://u ")).2
      = [Effect.clipboardWrite (jsTrim " https://u "),
         Effect.showNotify "FastDrop - Upload Complete"
           (notifyBody true "a") (jsTrim " https://u ")] :=
  ⟨by decide,
   (c8_autocopy_effects
     { files := [{ path := "a", name := "a", state := UploadState.uploading,
                   progress := 30, url := none, error := none }],
       pending := [{ fileIndex := 0, fileName := "a", isOpen := true }] }
     0 { fileIndex := 0, fileName := "a", isOpen := true } " https://u " "m" false
     { path := "a", name := "a", state := UploadState.uploading,
       progress := 30, url := none, error := none }
     (by decide) (by decide) (by decide)).1⟩

/-- C9: corrupted or missing persisted state acts as no credentials and
default flags, never an error: getCredentials is null for a missing file,
a parse failure, an absent credentials object, or one with an empty
field; getAutoCopy is false in the corresponding cases. -/
theorem c9_corrupt_config_defaults (c : ConfigData) (g : CredData) :
    getGoogleCredentials ConfigContent.missing = none ∧
    getGoogleCredentials ConfigContent.unparsable = none ∧
    (c.googleCredentials = none → getGoogleCredentials (ConfigContent.parsed c) = none) ∧
    (c.googleCredentials = some g → (g.clientId = "" ∨ g.clientSecret = "") →
      getGoogleCredentials (ConfigContent.parsed c) = none) ∧
    getAutoCopy ConfigContent.missing = false ∧
    getAutoCopy ConfigContent.unparsable = false ∧
    (c.autoCopy = none → getAutoCopy (ConfigContent.parsed c) = false) := by
  refine ⟨rfl, rfl, ?_, ?_, rfl, rfl, ?_⟩
  · intro h
    simp [getGoogleCredentials, h]
  · intro h hemp
    simp only [getGoogleCredentials, h]
    rw [if_neg ?_]
    rcases hemp with h3 | h3
    · exact fun hc => hc.1 h3
    · exact fun hc => hc.2 h3
  · intro h
    simp [getAutoCopy, h]

/-- C9 witness: a parsed config with a credentials object whose secret is
empty yields null credentials; its absent autoCopy field reads false. -/
theorem c9_corrupt_config_defaults_witness :
    getGoogleCredentials (ConfigContent.parsed
      { googleCredentials := some { clientId := "id", clientSecret := "" },
        autoStart := none, autoCopy := none }) = none ∧
    getAutoCopy (ConfigContent.parsed
      { googleCredentials := some { clientId := "id", clientSecret := "" },
        autoStart := none, autoCopy := none }) = false :=
  ⟨(c9_corrupt_config_defaults
      { googleCredentials := some { clientId := "id", clientSecret := "" },
        autoStart := none, autoCopy := none }
      { clientId := "id", clientSecret := "" }).2.2.2.1 (by decide) (by decide),
   (c9_corrupt_config_defaults
      { googleCredentials := some { clientId := "id", clientSecret := "" },
        autoStart := none, autoCopy := none }
      { clientId := "id", clientSecret := "" }).2.2.2.2.2.2 (by decide)⟩

/-- C10: the write handlers are frame-preserving on the parsed config:
saving credentials rewrites exactly the googleCredentials field and keeps
autoStart and autoCopy; setting auto-copy rewrites exactly the autoCopy
field and keeps googleCredentials and autoStart.  A missing or corrupted
prior config starts from the empty record. -/
theorem c10_config_frame (c : ConfigData) (clientId clientSecret : String) (b : Bool) :
    saveGoogleCredentials (ConfigContent.parsed c) clientId clientSecret
      = { c with googleCredentials := some ({ clientId := clientId, clientSecret := clientSecret } : CredData) } ∧
    setAutoCopy (ConfigContent.parsed c) b = { c with autoCopy := some b } ∧
    saveGoogleCredentials ConfigContent.missing clientId clientSecret
      = { googleCredentials := some ({ clientId := clientId, clientSecret := clientSecret } : CredData),
          autoStart := none, autoCopy := none } ∧
    saveGoogleCredentials ConfigContent.unparsable clientId clientSecret
      = { googleCredentials := some ({ clientId := clientId, clientSecret := clientSecret } : CredData),
          autoStart := none, autoCopy := none } ∧
    setAutoCopy ConfigContent.missing b
      = { googleCredentials := none, autoStart := none, autoCopy := some b } ∧
    setAutoCopy ConfigContent.unparsable b
      = { googleCredentials := none, autoStart := none, autoCopy := some b } :=
  ⟨rfl, rfl, rfl, rfl, rfl, rfl⟩

end FastDrop
